import Mathlib

/-!
Shallow embedding of the blog content pipeline of `src/data/blogPosts.ts`
(frontmatter parser, post normalizer, post repository and its accessors).

Strings are handled as `List Char`; machine details that the source leaves
to the JavaScript runtime (the `\s` character class, `String.prototype.trim`,
`split`, `Array.prototype.sort`) are modelled per ECMA-262, as noted at each
definition.
-/

namespace Blog

/-- The ECMAScript `\s` character class (WhiteSpace ∪ LineTerminator):
tab, LF, VT, FF, CR, space, NBSP, and the Unicode space separators,
LS, PS, NNBSP, MMSP, ideographic space and the BOM. -/
def isWs (c : Char) : Bool :=
  let n := c.val.toNat
  n = 9 || n = 10 || n = 11 || n = 12 || n = 13 || n = 32 ||
  n = 0xa0 || n = 0x1680 || (0x2000 ≤ n && n ≤ 0x200a) ||
  n = 0x2028 || n = 0x2029 || n = 0x202f || n = 0x205f || n = 0x3000 || n = 0xfeff

/-- Both-ends whitespace trim, modelling `String.prototype.trim` (which
strips exactly the `\s` class above). -/
def trimWs (l : List Char) : List Char :=
  ((l.dropWhile isWs).reverse.dropWhile isWs).reverse

/-- All ways the regex piece `\s*\n` can match at the head of `l`, each
given by the suffix remaining after it, in backtracking priority order:
the greedy `\s*` prefers the longest consumption, so the suffix after the
last `'\n'` of the leading whitespace run comes first. -/
def wsNlSuffixes : List Char → List (List Char)
  | [] => []
  | c :: cs =>
    if c = '\n' then wsNlSuffixes cs ++ [cs]
    else if isWs c then wsNlSuffixes cs
    else []

/-- One attempt of the closing-delimiter piece `\n---\s*\n` at the head of
`l`.  Inside the full pattern it is followed by `([\s\S]*)$`, which matches
any remainder, so the greedy `\s*` keeps its first (longest) choice; hence
`head?`.  Returns the body (the second capture group) on success. -/
def closingMatch : List Char → Option (List Char)
  | '\n' :: '-' :: '-' :: '-' :: rest => (wsNlSuffixes rest).head?
  | _ => none

/-- The lazy middle `([\s\S]*?)` followed by the closing delimiter: scan for
the shortest middle (accumulated reversed in `acc`) whose suffix starts with
a closing delimiter.  Returns (first capture group, second capture group). -/
def scanClosing : List Char → List Char → Option (List Char × List Char)
  | _, [] => none
  | acc, c :: cs =>
    match closingMatch (c :: cs) with
    | some body => some (acc.reverse, body)
    | none => scanClosing (c :: acc) cs

/-- Backtracking over the opening delimiter's `\s*` choices (earlier choice
point, so it is retried only after every later choice fails). -/
def tryOpens : List (List Char) → Option (List Char × List Char)
  | [] => none
  | s :: rest =>
    match scanClosing [] s with
    | some r => some r
    | none => tryOpens rest

/-- Model of `content.match(/^---\s*\n([\s\S]*?)\n---\s*\n([\s\S]*)$/)`:
`none` when the anchored pattern does not match, otherwise the two capture
groups (frontmatter header block, markdown body). -/
def frontmatterSplit (l : List Char) : Option (List Char × List Char) :=
  match l with
  | '-' :: '-' :: '-' :: rest => tryOpens (wsNlSuffixes rest)
  | _ => none

/-- The loosely typed values the frontmatter line parser produces
(string, boolean, integer, or string array), as stored in the untyped
`data: Record<string, unknown>` object of the source. -/
inductive FmValue where
  | str : String → FmValue
  | bool : Bool → FmValue
  | nat : Nat → FmValue
  | list : List String → FmValue
  deriving DecidableEq, Repr

/-- Split on a single separator character, modelling
`String.prototype.split` with a one-character separator: the empty string
yields `[""]`, and separators at the ends yield empty fields. -/
def splitOnChar (sep : Char) : List Char → List (List Char)
  | [] => [[]]
  | c :: cs =>
    if c = sep then [] :: splitOnChar sep cs
    else
      match splitOnChar sep cs with
      | t :: ts => (c :: t) :: ts
      | [] => [[c]]

/-- The paired-quote strip of the source (lines 60-63): if the value both
starts and ends with `"`, or both starts and ends with `'`, drop one
character from each end (`value.slice(1, -1)`; on a single quote character
both tests pass and the result is empty, exactly as in JS). -/
def stripPairQuotes (l : List Char) : List Char :=
  if (l.head? = some '"' && l.getLast? = some '"') ||
     (l.head? = some '\'' && l.getLast? = some '\'') then
    (l.drop 1).dropLast
  else l

/-- The per-element quote strip of array items,
`item.replace(/^["']|["']$/g, '')`: drop one leading quote character if
present, then one trailing quote character if present (mismatched quotes
are each stripped; a lone quote character is consumed by the leading
alternative, leaving the empty string). -/
def stripEdgeQuotes (l : List Char) : List Char :=
  let l1 :=
    match l with
    | c :: cs => if c = '"' || c = '\'' then cs else l
    | [] => []
  match l1.getLast? with
  | some c => if c = '"' || c = '\'' then l1.dropLast else l1
  | none => l1

/-- The test `/^\d+$/.test(value)`: nonempty and all ASCII digits. -/
def allDigits (l : List Char) : Bool :=
  !l.isEmpty && l.all (fun c => '0' ≤ c && c ≤ '9')

/-- Decimal digits to a number, modelling `parseInt(value, 10)` on an
all-digit string.  (JS computes a float and loses precision beyond 2^53;
no document in the repository comes near that.) -/
def digitsToNat (l : List Char) : Nat :=
  l.foldl (fun a c => a * 10 + (c.toNat - '0'.toNat)) 0

/-- Value coercion applied after the paired-quote strip (source lines
65-85): `[...]` literals become arrays (elements split on commas, trimmed,
edge-quote-stripped, empties discarded), the exact tokens `true` / `false`
become booleans, all-digit values become integers, anything else stays a
string. -/
def coerceValue (v : List Char) : FmValue :=
  if v.head? = some '[' && v.getLast? = some ']' then
    FmValue.list
      ((((splitOnChar ',' ((v.drop 1).dropLast)).map
          (fun item => stripEdgeQuotes (trimWs item))).filter
          (fun item => item.length > 0)).map (fun item => String.mk item))
  else if v = "true".toList then FmValue.bool true
  else if v = "false".toList then FmValue.bool false
  else if allDigits v then FmValue.nat (digitsToNat v)
  else FmValue.str (String.mk v)

/-- One header line (source lines 49-58): trim; skip blank lines and lines
starting with `#`; skip lines without a colon; split at the first colon
into a trimmed key and a trimmed value; strip paired quotes from the value
and coerce it.  `none` means the line is silently skipped. -/
def parseHeaderLine (line : List Char) : Option (String × FmValue) :=
  let trimmed := trimWs line
  if trimmed.isEmpty then none
  else if trimmed.head? = some '#' then none
  else
    match trimmed.findIdx? (fun c => c = ':') with
    | none => none
    | some i =>
      let key := trimWs (trimmed.take i)
      let value := stripPairQuotes (trimWs (trimmed.drop (i + 1)))
      some (String.mk key, coerceValue value)

/-- Assignment `data[key] = v` on a JS object modelled as an association
list: an existing binding is overwritten in place, a new key is appended. -/
def setKey (m : List (String × FmValue)) (k : String) (v : FmValue) :
    List (String × FmValue) :=
  if m.any (fun kv => kv.1 = k) then
    m.map (fun kv => if kv.1 = k then (k, v) else kv)
  else m ++ [(k, v)]

/-- Property read `m[k]` on the association list. -/
def lookupKey (m : List (String × FmValue)) (k : String) : Option FmValue :=
  (m.find? (fun kv => kv.1 = k)).map (fun kv => kv.2)

/-- The header block parser: `frontmatterStr.split('\n').forEach(...)`
accumulating assignments into the data object. -/
def parseHeader (l : List Char) : List (String × FmValue) :=
  (splitOnChar '\n' l).foldl
    (fun m line =>
      match parseHeaderLine line with
      | some kv => setKey m kv.1 kv.2
      | none => m)
    []

/-- The function `parseFrontmatter` of the source: on a regex miss, an
empty data object and the whole input as content; on a hit, the parsed
header and the second capture group as content.  The source function is
total on strings — no code path throws. -/
def parseFrontmatter (content : String) :
    List (String × FmValue) × String :=
  match frontmatterSplit content.toList with
  | none => ([], content)
  | some (header, body) => (parseHeader header, String.mk body)

/-- Number of maximal runs of non-whitespace characters, tracking whether
the previous character was inside a run. -/
def runCountAux : Bool → List Char → Nat
  | _, [] => 0
  | inWord, c :: cs =>
    if isWs c then runCountAux false cs
    else (if inWord then 0 else 1) + runCountAux true cs

/-- Number of maximal non-whitespace runs of `l`. -/
def runCount (l : List Char) : Nat := runCountAux false l

/-- The length of `content.trim().split(/\s+/)`: splitting the empty
string yields `[""]` (length 1); a trimmed nonempty string splits into
exactly its non-whitespace runs. -/
def splitWsLen (l : List Char) : Nat :=
  let t := trimWs l
  if t.isEmpty then 1 else runCount t

/-- The function `estimateReadTime` of the source: word count divided by
200 words/minute, rounded up (`Math.ceil`). -/
def estimateReadTime (content : String) : Nat :=
  (splitWsLen content.toList + 199) / 200

/-- A normalized blog post.  The TS interface `BlogPost` declares narrower
field types, but the normalizer builds the record from the untyped
frontmatter object and force-casts it (`as BlogPost`), so each
frontmatter-fed field can in fact carry any coerced value; the embedding
keeps the dynamic type to stay faithful. -/
structure Post where
  id : Nat
  title : FmValue
  slug : FmValue
  date : FmValue
  excerpt : FmValue
  tags : FmValue
  featured : FmValue
  readTime : FmValue
  content : String
  deriving DecidableEq, Repr

/-- JS truthiness of a frontmatter value (`""`, `false` and `0` are falsy;
every array is truthy). -/
def truthy : FmValue → Bool
  | .str s => s ≠ ""
  | .bool b => b
  | .nat n => n ≠ 0
  | .list _ => true

/-- The `a || b` defaulting idiom of the normalizer: the frontmatter value
when present and truthy, the default otherwise (an absent property is
`undefined`, which is falsy). -/
def orDefault (v : Option FmValue) (d : FmValue) : FmValue :=
  match v with
  | some x => if truthy x then x else d
  | none => d

/-- One entry of the source's `blogPostFiles` list: the base file name and
the raw markdown text. -/
structure BlogFile where
  name : String
  content : String
  deriving DecidableEq, Repr

/-- The post construction of `blogPosts` (source lines 121-135) for one
file at position `idx`.  `today` stands for the ambient
`new Date().toISOString().split('T')[0]` — the current date as an ISO
date string without time component, passed explicitly since the embedding
has no clock. -/
def normalizePost (idx : Nat) (file : BlogFile) (today : String) : Post :=
  let parsed := parseFrontmatter file.content
  let fm := parsed.1
  let body := parsed.2
  { id := idx + 1
    title := orDefault (lookupKey fm "title") (.str "Untitled")
    slug := orDefault (lookupKey fm "slug") (.str file.name)
    date := orDefault (lookupKey fm "date") (.str today)
    excerpt := orDefault (lookupKey fm "excerpt") (.str "")
    tags := orDefault (lookupKey fm "tags") (.list [])
    featured := orDefault (lookupKey fm "featured") (.bool false)
    readTime := orDefault (lookupKey fm "readTime") (.nat (estimateReadTime body))
    content := body }

/-- Strict ISO `YYYY-MM-DD` shape check, yielding year, month, day. -/
def parseIsoDate (s : String) : Option (Nat × Nat × Nat) :=
  match s.toList with
  | [y1, y2, y3, y4, '-', m1, m2, '-', d1, d2] =>
    if [y1, y2, y3, y4, m1, m2, d1, d2].all (fun c => '0' ≤ c && c ≤ '9') then
      let y := digitsToNat [y1, y2, y3, y4]
      let m := digitsToNat [m1, m2]
      let d := digitsToNat [d1, d2]
      if 1 ≤ m && m ≤ 12 && 1 ≤ d && d ≤ 31 then some (y, m, d) else none
    else none
  | _ => none

/-- Days from 1970-01-01 of a civil date (Gregorian, Hinnant's algorithm);
day numbers past the end of a month roll over exactly as ECMAScript's
`MakeDay` does. -/
def daysFromCivil (y m d : Int) : Int :=
  let yy := y - (if m ≤ 2 then 1 else 0)
  let era := (if 0 ≤ yy then yy else yy - 399) / 400
  let yoe := yy - era * 400
  let mp := (m + 9) % 12
  let doy := (153 * mp + 2) / 5 + d - 1
  let doe := yoe * 365 + yoe / 4 - yoe / 100 + doy
  era * 146097 + doe - 719468

/-- Milliseconds since the epoch of a `YYYY-MM-DD` string, the value of
`new Date(s).getTime()` for the ISO date-only form; `none` models `NaN`
(ECMAScript also accepts longer date-time forms, which no document here
uses and the model treats as unparseable). -/
def isoMs (s : String) : Option Int :=
  (parseIsoDate s).map (fun ymd =>
    86400000 * daysFromCivil (Int.ofNat ymd.1) (Int.ofNat ymd.2.1) (Int.ofNat ymd.2.2))

/-- The value of `new Date(v).getTime()` for a frontmatter-fed `date`
field: strings are parsed as dates, numbers are taken as millisecond
timestamps, booleans coerce to 0/1; `none` models `NaN`.  (An array value
would stringify first and in general fails to parse; the model maps it to
`NaN`.) -/
def dateNum : FmValue → Option Int
  | .str s => isoMs s
  | .nat n => some (Int.ofNat n)
  | .bool b => some (if b then 1 else 0)
  | .list _ => none

/-- The sort comparator of the source,
`(a, b) => new Date(b.date).getTime() - new Date(a.date).getTime()`;
per ECMA-262 `SortCompare`, a `NaN` comparator result is treated as 0. -/
def cmpPosts (a b : Post) : Int :=
  match dateNum b.date, dateNum a.date with
  | some x, some y => x - y
  | _, _ => 0

/-- Insertion of one post into an already-sorted list, keeping it before
the first element it does not strictly follow. -/
def insertPost (x : Post) : List Post → List Post
  | [] => [x]
  | y :: ys => if cmpPosts x y ≤ 0 then x :: y :: ys else y :: insertPost x ys

/-- Model of `Array.prototype.sort` with the date comparator: ECMA-262
requires a stable sort whose result is ordered by the comparator whenever
the comparator is consistent (it leaves the order implementation-defined
otherwise), and this stable insertion sort satisfies exactly that
contract. -/
def sortPosts : List Post → List Post
  | [] => []
  | x :: xs => insertPost x (sortPosts xs)

/-- The indexed map of the construction,
`blogPostFiles.map((file, index) => ...)`, with the body abstracted as
`norm`: `none` is the `null` a thrown normalization is converted to by the
`try`/`catch`. -/
def normAll (norm : Nat → BlogFile → Option Post) :
    Nat → List BlogFile → List (Option Post)
  | _, [] => []
  | i, f :: fs => norm i f :: normAll norm (i + 1) fs

/-- The repository construction pipeline (source lines 118-144) with the
per-document normalization outcome abstracted:
map, then `.filter(post => post !== null)`, then sort. -/
def buildRepoWith (norm : Nat → BlogFile → Option Post)
    (files : List BlogFile) : List Post :=
  sortPosts ((normAll norm 0 files).filterMap id)

/-- The `blogPosts` construction itself: in the source, `normalizePost`
is total (no code path of `parseFrontmatter` or the field defaults
throws), so every document yields `some` post. -/
def buildRepo (files : List BlogFile) (today : String) : List Post :=
  buildRepoWith (fun i f => some (normalizePost i f today)) files

/-- The function `getBlogPostBySlug`: `find` with strict equality
`post.slug === slug`, i.e. equality with the string value `slug` (false
for a slug of any other dynamic type). -/
def getBlogPostBySlug (posts : List Post) (slug : String) : Option Post :=
  posts.find? (fun p => p.slug = FmValue.str slug)

/-- The function `getFeaturedBlogPosts`: `filter(post => post.featured)`,
a truthiness test. -/
def getFeaturedBlogPosts (posts : List Post) : List Post :=
  posts.filter (fun p => truthy p.featured)

/-- Whether `t` starts with `s` as a character list. -/
def startsWithList : List Char → List Char → Bool
  | [], _ => true
  | _ :: _, [] => false
  | a :: as, b :: bs => a = b && startsWithList as bs

/-- Contiguous-substring test, modelling `String.prototype.includes`. -/
def subStrAt (t s : List Char) : Bool :=
  (List.range (s.length + 1)).any (fun i => startsWithList t (s.drop i))

/-- The dynamic call `post.tags.includes(tag)`: membership for an array
receiver, substring search for a string receiver, and a thrown `TypeError`
(modelled as `none`) for a number or boolean receiver, which has no
`includes` method. -/
def includesJS (v : FmValue) (tag : String) : Option Bool :=
  match v with
  | .list l => some (l.contains tag)
  | .str s => some (subStrAt tag.toList s.toList)
  | _ => none

/-- `Array.prototype.filter` with a callback that may throw: elements are
visited left to right and the first throw aborts the whole call. -/
def filterJS (f : α → Option Bool) : List α → Option (List α)
  | [] => some []
  | x :: xs =>
    match f x with
    | none => none
    | some b => (filterJS f xs).map (fun r => if b then x :: r else r)

/-- The function `getBlogPostsByTag`:
`filter(post => post.tags.includes(tag))`; `none` models the `TypeError`
raised when some post's `tags` value is neither array nor string. -/
def getBlogPostsByTag (posts : List Post) (tag : String) :
    Option (List Post) :=
  filterJS (fun p => includesJS p.tags tag) posts

/-! ### Helper lemmas -/

theorem insertPost_perm (x : Post) (l : List Post) :
    (insertPost x l).Perm (x :: l) := by
  induction l with
  | nil => simp [insertPost]
  | cons y ys ih =>
    simp only [insertPost]
    split
    · exact List.Perm.refl _
    · exact (ih.cons y).trans (List.Perm.swap x y ys)

theorem sortPosts_perm (l : List Post) : (sortPosts l).Perm l := by
  induction l with
  | nil => simp [sortPosts]
  | cons x xs ih =>
    simp only [sortPosts]
    exact (insertPost_perm x (sortPosts xs)).trans (ih.cons x)

theorem cmpPosts_total (a b : Post) : cmpPosts a b ≤ 0 ∨ cmpPosts b a ≤ 0 := by
  unfold cmpPosts
  cases dateNum a.date <;> cases dateNum b.date <;> simp <;> omega

theorem cmpPosts_trans (a b c : Post) (hb : (dateNum b.date).isSome = true)
    (h1 : cmpPosts a b ≤ 0) (h2 : cmpPosts b c ≤ 0) : cmpPosts a c ≤ 0 := by
  unfold cmpPosts at *
  cases ha : dateNum a.date <;> cases hbb : dateNum b.date <;>
    cases hc : dateNum c.date <;> simp_all <;> omega

theorem pairwise_insertPost {x : Post} {l : List Post}
    (hl : ∀ p ∈ l, (dateNum p.date).isSome = true)
    (hs : l.Pairwise (fun a b => cmpPosts a b ≤ 0)) :
    (insertPost x l).Pairwise (fun a b => cmpPosts a b ≤ 0) := by
  induction l with
  | nil => simp [insertPost]
  | cons y ys ih =>
    rcases List.pairwise_cons.mp hs with ⟨hy, hys⟩
    simp only [insertPost]
    by_cases hxy : cmpPosts x y ≤ 0
    · rw [if_pos hxy]
      refine List.pairwise_cons.mpr ⟨?_, hs⟩
      intro z hz
      rcases List.mem_cons.mp hz with rfl | hz
      · exact hxy
      · exact cmpPosts_trans x y z (hl y (List.mem_cons_self y ys)) hxy (hy z hz)
    · rw [if_neg hxy]
      refine List.pairwise_cons.mpr
        ⟨?_, ih (fun p hp => hl p (List.mem_cons_of_mem _ hp)) hys⟩
      intro z hz
      have hz' : z = x ∨ z ∈ ys := by
        simpa using (insertPost_perm x ys).mem_iff.mp hz
      rcases hz' with rfl | hz'
      · rcases cmpPosts_total z y with h | h
        · exact absurd h hxy
        · exact h
      · exact hy z hz'

theorem sortPosts_pairwise (l : List Post)
    (h : ∀ p ∈ l, (dateNum p.date).isSome = true) :
    (sortPosts l).Pairwise (fun a b => cmpPosts a b ≤ 0) := by
  induction l with
  | nil => simp [sortPosts]
  | cons x xs ih =>
    simp only [sortPosts]
    exact pairwise_insertPost
      (fun p hp =>
        h p (List.mem_cons_of_mem _ ((sortPosts_perm xs).mem_iff.mp hp)))
      (ih fun p hp => h p (List.mem_cons_of_mem _ hp))

theorem filterJS_sublist {α : Type} {f : α → Option Bool} :
    ∀ {l r : List α}, filterJS f l = some r → List.Sublist r l := by
  intro l
  induction l with
  | nil =>
    intro r h
    simp only [filterJS, Option.some.injEq] at h
    exact h ▸ List.nil_sublist _
  | cons x xs ih =>
    intro r h
    simp only [filterJS] at h
    cases hfx : f x with
    | none => rw [hfx] at h; simp at h
    | some b =>
      rw [hfx] at h
      cases hrec : filterJS f xs with
      | none => rw [hrec] at h; simp at h
      | some r' =>
        rw [hrec] at h
        cases b with
        | true =>
          have hxr : x :: r' = r := by simpa using h
          rw [← hxr]
          exact List.Sublist.cons₂ x (ih hrec)
        | false =>
          have hxr : r' = r := by simpa using h
          rw [← hxr]
          exact List.Sublist.cons x (ih hrec)

theorem find?_first {α : Type} (pred : α → Bool) :
    ∀ (l : List α) (x : α), l.find? pred = some x →
      pred x = true ∧
        ∃ s t, l = s ++ x :: t ∧ ∀ q ∈ s, pred q = false := by
  intro l
  induction l with
  | nil => intro x h; simp at h
  | cons a as ih =>
    intro x h
    by_cases hp : pred a = true
    · rw [List.find?_cons_of_pos _ hp] at h
      obtain rfl : a = x := by simpa using h
      exact ⟨hp, [], as, rfl, by simp⟩
    · rw [List.find?_cons_of_neg _ (by simpa using hp)] at h
      rcases ih x h with ⟨hx, s, t, rfl, hall⟩
      refine ⟨hx, a :: s, t, rfl, ?_⟩
      intro q hq
      rcases List.mem_cons.mp hq with rfl | hq
      · simpa using hp
      · exact hall q hq

theorem wsNlSuffixes_drop :
    ∀ (m : List Char), ∀ u ∈ wsNlSuffixes m, ∃ k, u = m.drop k := by
  intro m
  induction m with
  | nil => simp [wsNlSuffixes]
  | cons c cs ih =>
    simp only [wsNlSuffixes]
    split
    · intro u hu
      rcases List.mem_append.mp hu with hu | hu
      · rcases ih u hu with ⟨k, rfl⟩
        exact ⟨k + 1, by simp⟩
      · have : u = cs := by simpa using hu
        exact ⟨1, by simp [this]⟩
    · split
      · intro u hu
        rcases ih u hu with ⟨k, rfl⟩
        exact ⟨k + 1, by simp⟩
      · simp

theorem scanClosing_none :
    ∀ (m acc : List Char), (∀ p, closingMatch (m.drop p) = none) →
      scanClosing acc m = none := by
  intro m
  induction m with
  | nil => intro acc _; rfl
  | cons c cs ih =>
    intro acc h
    have h0 : closingMatch (c :: cs) = none := by simpa using h 0
    simp only [scanClosing, h0]
    exact ih _ fun p => by simpa using h (p + 1)

theorem tryOpens_none :
    ∀ (L : List (List Char)), (∀ u ∈ L, scanClosing [] u = none) →
      tryOpens L = none := by
  intro L
  induction L with
  | nil => intro _; rfl
  | cons s rest ih =>
    intro h
    have hs := h s (List.mem_cons_self s rest)
    simp only [tryOpens, hs]
    exact ih fun u hu => h u (List.mem_cons_of_mem _ hu)

theorem frontmatterSplit_none_of_noClosing (rest : List Char)
    (h : ∀ p, closingMatch (rest.drop p) = none) :
    frontmatterSplit ('-' :: '-' :: '-' :: rest) = none := by
  simp only [frontmatterSplit]
  apply tryOpens_none
  intro u hu
  rcases wsNlSuffixes_drop rest u hu with ⟨k, rfl⟩
  apply scanClosing_none
  intro p
  rw [List.drop_drop]
  exact h (k + p)

theorem parseFrontmatter_none_eq (s : String)
    (h : frontmatterSplit s.toList = none) : parseFrontmatter s = ([], s) := by
  unfold parseFrontmatter
  rw [h]

theorem orDefault_pos {v d : FmValue} (ht : truthy v = true) :
    orDefault (some v) d = v := by simp [orDefault, ht]

theorem orDefault_neg {v d : FmValue} (ht : truthy v = false) :
    orDefault (some v) d = d := by simp [orDefault, ht]

theorem head?_dropWhile_not (p : Char → Bool) :
    ∀ (l : List Char) (c : Char), (l.dropWhile p).head? = some c →
      p c = false := by
  intro l
  induction l with
  | nil => intro c h; simp at h
  | cons a as ih =>
    intro c h
    by_cases hp : p a = true
    · rw [List.dropWhile_cons_of_pos hp] at h
      exact ih c h
    · rw [List.dropWhile_cons_of_neg (by simpa using hp)] at h
      obtain rfl : a = c := by simpa using h
      simpa using hp

theorem trimWs_exists_not_ws {l : List Char} (h : ¬ (trimWs l).isEmpty = true) :
    ∃ c ∈ trimWs l, isWs c = false := by
  have hne : trimWs l ≠ [] := fun he => h (by simp [he])
  rcases hA : (l.dropWhile isWs).reverse.dropWhile isWs with _ | ⟨c, cs⟩
  · exact absurd (by unfold trimWs; rw [hA]; rfl) hne
  · have hcw : isWs c = false :=
      head?_dropWhile_not isWs (l.dropWhile isWs).reverse c (by rw [hA]; rfl)
    refine ⟨c, ?_, hcw⟩
    unfold trimWs
    rw [hA]
    simp

theorem runCountAux_pos :
    ∀ {l : List Char}, (∃ c ∈ l, isWs c = false) → 1 ≤ runCountAux false l := by
  intro l
  induction l with
  | nil => intro h; simp at h
  | cons a as ih =>
    intro h
    by_cases ha : isWs a = true
    · have hr : runCountAux false (a :: as) = runCountAux false as := by
        simp [runCountAux, ha]
      rw [hr]
      apply ih
      rcases h with ⟨c, hc, hcw⟩
      rcases List.mem_cons.mp hc with rfl | hc
      · rw [ha] at hcw; exact absurd hcw (by simp)
      · exact ⟨c, hc, hcw⟩
    · have hr : runCountAux false (a :: as) = 1 + runCountAux true as := by
        simp [runCountAux, ha]
      omega

theorem estimateReadTime_eq_spec (s : String) :
    estimateReadTime s = max 1 ((runCount (trimWs s.toList) + 199) / 200) := by
  have key : ∀ L : List Char,
      ((if (trimWs L).isEmpty then 1 else runCount (trimWs L)) + 199) / 200 =
        max 1 ((runCount (trimWs L) + 199) / 200) := by
    intro L
    by_cases ht : (trimWs L).isEmpty = true
    · have he : trimWs L = [] := by simpa using ht
      rw [if_pos ht, he]
      decide
    · have hpos : 1 ≤ runCount (trimWs L) :=
        runCountAux_pos (trimWs_exists_not_ws ht)
      rw [if_neg ht]
      omega
  exact key s.toList

/-! ### Claim theorems -/

theorem drop_add_three (a b c : Char) (l : List Char) (p : Nat) :
    (a :: b :: c :: l).drop (p + 3) = l.drop p := by
  rw [Nat.add_comm p 3, ← List.drop_drop]
  rfl

/-- Claim C5: for every input text in which the frontmatter delimiter
pattern is not found at the start, `parseFrontmatter` returns an empty
header mapping and the entire input unchanged as the body.  (The source
function is total — it has no throwing path — so "never raises an error"
holds by construction of the embedding.) -/
theorem missing_frontmatter_recovered (s : String)
    (h : frontmatterSplit s.toList = none) :
    parseFrontmatter s = ([], s) :=
  parseFrontmatter_none_eq s h

theorem missing_frontmatter_recovered_witness :
    frontmatterSplit "hello world".toList = none ∧
    parseFrontmatter "hello world" = ([], "hello world") :=
  ⟨by decide, missing_frontmatter_recovered "hello world" (by decide)⟩

/-- Claim C10: for every input that begins with the opening `---` but in
which no closing `---` delimiter is anywhere followed by a newline (in
particular when the text ends immediately after the closing `---`), the
regex does not match, so `parseFrontmatter` recognizes no frontmatter and
returns an empty header with the entire text as the body. -/
theorem unclosed_frontmatter_ignored (s : String)
    (h1 : ∃ rest, s.toList = '-' :: '-' :: '-' :: rest)
    (h2 : ∀ p < s.toList.length, closingMatch (s.toList.drop p) = none) :
    parseFrontmatter s = ([], s) := by
  rcases h1 with ⟨rest, hr⟩
  have hlen : s.toList.length = rest.length + 3 := by
    rw [hr]; simp
  have h2' : ∀ p, closingMatch (rest.drop p) = none := by
    intro p
    by_cases hp : p + 3 < s.toList.length
    · have := h2 (p + 3) hp
      rw [hr, drop_add_three] at this
      exact this
    · have : rest.drop p = [] := List.drop_eq_nil_of_le (by omega)
      rw [this]
      rfl
  apply parseFrontmatter_none_eq
  rw [hr]
  exact frontmatterSplit_none_of_noClosing rest h2'

theorem unclosed_frontmatter_ignored_witness :
    (∃ rest, "---\ntitle: x\n---".toList = '-' :: '-' :: '-' :: rest) ∧
    (∀ p < "---\ntitle: x\n---".toList.length,
        closingMatch ("---\ntitle: x\n---".toList.drop p) = none) ∧
    parseFrontmatter "---\ntitle: x\n---" = ([], "---\ntitle: x\n---") :=
  ⟨⟨"\ntitle: x\n---".toList, by decide⟩, by decide,
    unclosed_frontmatter_ignored "---\ntitle: x\n---"
      ⟨"\ntitle: x\n---".toList, by decide⟩ (by decide)⟩

/-- Claim C4: normalizing a document whose text contains no frontmatter
block yields the placeholder title `Untitled`, the file-name fallback
slug, `today` (the ambient ISO date string), empty excerpt, empty tags,
`featured = false`, and a read time estimated from the body's word
count. -/
theorem no_frontmatter_defaults (i : Nat) (f : BlogFile) (today : String)
    (h : frontmatterSplit f.content.toList = none) :
    normalizePost i f today =
      { id := i + 1, title := .str "Untitled", slug := .str f.name,
        date := .str today, excerpt := .str "", tags := .list [],
        featured := .bool false,
        readTime := .nat (estimateReadTime f.content),
        content := f.content } := by
  have hp := parseFrontmatter_none_eq f.content h
  simp [normalizePost, hp, lookupKey, orDefault]

theorem no_frontmatter_defaults_witness :
    frontmatterSplit "two words".toList = none ∧
    normalizePost 0 ⟨"some-file", "two words"⟩ "2024-05-06" =
      { id := 1, title := .str "Untitled", slug := .str "some-file",
        date := .str "2024-05-06", excerpt := .str "", tags := .list [],
        featured := .bool false, readTime := .nat 1,
        content := "two words" } := by
  refine ⟨by decide, ?_⟩
  have h := no_frontmatter_defaults 0 ⟨"some-file", "two words"⟩
    "2024-05-06" (by decide)
  rw [h]
  decide

/-- Claim C8: the unquoted value `true` coerces to the boolean `true`;
the quoted value `"true"` also coerces to boolean `true`, because quote
stripping happens before coercion; the value `yes` stays the string
`"yes"`. -/
theorem boolean_coercion :
    (parseFrontmatter "---\nfeatured: true\n---\nb").1 =
      [("featured", FmValue.bool true)] ∧
    (parseFrontmatter "---\nfeatured: \"true\"\n---\nb").1 =
      [("featured", FmValue.bool true)] ∧
    (parseFrontmatter "---\nfeatured: yes\n---\nb").1 =
      [("featured", FmValue.str "yes")] := by
  decide

/-- Claim C9: a `[...]` header value parses to the ordered list of its
comma-separated elements, trimmed and quote-stripped, with elements empty
after trimming discarded; in particular `tags: ["Rust", "Go", ""]` yields
`["Rust", "Go"]`. -/
theorem tag_array_parsing :
    (parseFrontmatter "---\ntags: [\"Rust\", \"Go\", \"\"]\n---\nb").1 =
      [("tags", FmValue.list ["Rust", "Go"])] ∧
    (parseFrontmatter "---\ntags: [a, 'b' , ,c]\n---\nb").1 =
      [("tags", FmValue.list ["a", "b", "c"])] := by
  decide

/-- Claim C1 counterexample: the field `title` is present in the
frontmatter with the (coerced) value `""`, yet the normalized Post does
not carry that value verbatim — the `||` defaulting replaces every falsy
frontmatter value, so the title becomes the placeholder `Untitled`. -/
theorem frontmatter_precedence_counterexample :
    lookupKey (parseFrontmatter "---\ntitle: \"\"\n---\nbody").1 "title" =
      some (FmValue.str "") ∧
    (normalizePost 0 ⟨"file", "---\ntitle: \"\"\n---\nbody"⟩
        "2024-01-01").title ≠ FmValue.str "" ∧
    (normalizePost 0 ⟨"file", "---\ntitle: \"\"\n---\nbody"⟩
        "2024-01-01").title = FmValue.str "Untitled" := by
  decide

/-- Claim C1 as amended: for every field present in frontmatter whose
coerced value is truthy, the normalized Post uses that value verbatim;
a present but falsy value (empty string, `false`, `0`) falls back to the
documented default instead (which happens to coincide with the value for
`excerpt: ""` and `featured: false`, but differs for title, slug, date
and readTime). -/
theorem frontmatter_precedence (i : Nat) (f : BlogFile) (today : String)
    (v : FmValue) :
    (lookupKey (parseFrontmatter f.content).1 "title" = some v →
      (truthy v = true → (normalizePost i f today).title = v) ∧
      (truthy v = false →
        (normalizePost i f today).title = FmValue.str "Untitled")) ∧
    (lookupKey (parseFrontmatter f.content).1 "slug" = some v →
      (truthy v = true → (normalizePost i f today).slug = v) ∧
      (truthy v = false →
        (normalizePost i f today).slug = FmValue.str f.name)) ∧
    (lookupKey (parseFrontmatter f.content).1 "date" = some v →
      (truthy v = true → (normalizePost i f today).date = v) ∧
      (truthy v = false →
        (normalizePost i f today).date = FmValue.str today)) ∧
    (lookupKey (parseFrontmatter f.content).1 "excerpt" = some v →
      (truthy v = true → (normalizePost i f today).excerpt = v) ∧
      (truthy v = false →
        (normalizePost i f today).excerpt = FmValue.str "")) ∧
    (lookupKey (parseFrontmatter f.content).1 "tags" = some v →
      (truthy v = true → (normalizePost i f today).tags = v) ∧
      (truthy v = false →
        (normalizePost i f today).tags = FmValue.list [])) ∧
    (lookupKey (parseFrontmatter f.content).1 "featured" = some v →
      (truthy v = true → (normalizePost i f today).featured = v) ∧
      (truthy v = false →
        (normalizePost i f today).featured = FmValue.bool false)) ∧
    (lookupKey (parseFrontmatter f.content).1 "readTime" = some v →
      (truthy v = true → (normalizePost i f today).readTime = v) ∧
      (truthy v = false →
        (normalizePost i f today).readTime =
          FmValue.nat (estimateReadTime (parseFrontmatter f.content).2))) := by
  refine ⟨?_, ?_, ?_, ?_, ?_, ?_, ?_⟩ <;>
    exact fun h =>
      ⟨fun ht => by simp [normalizePost, h, orDefault, ht],
       fun ht => by simp [normalizePost, h, orDefault, ht]⟩

theorem frontmatter_precedence_witness :
    (normalizePost 0 ⟨"f", "---\ntitle: Hi\nreadTime: 0\n---\nsome body"⟩
        "2024-01-01").title = FmValue.str "Hi" ∧
    (normalizePost 0 ⟨"f", "---\ntitle: Hi\nreadTime: 0\n---\nsome body"⟩
        "2024-01-01").readTime = FmValue.nat 1 := by
  constructor
  · exact ((frontmatter_precedence 0
      ⟨"f", "---\ntitle: Hi\nreadTime: 0\n---\nsome body"⟩ "2024-01-01"
      (FmValue.str "Hi")).1 (by decide)).1 (by decide)
  · have h := ((frontmatter_precedence 0
      ⟨"f", "---\ntitle: Hi\nreadTime: 0\n---\nsome body"⟩ "2024-01-01"
      (FmValue.nat 0)).2.2.2.2.2.2 (by decide)).2 (by decide)
    rw [h]
    decide

/-- Claim C6: when the frontmatter carries no `readTime`, the normalized
Post's read time is the number of whitespace-run-separated tokens of the
trimmed body, divided by 200 and rounded up, with minimum 1. -/
theorem read_time_default (i : Nat) (f : BlogFile) (today : String)
    (h : lookupKey (parseFrontmatter f.content).1 "readTime" = none) :
    (normalizePost i f today).readTime =
      FmValue.nat
        (max 1 ((runCount (trimWs (parseFrontmatter f.content).2.toList)
          + 199) / 200)) := by
  have hr : (normalizePost i f today).readTime =
      FmValue.nat (estimateReadTime (parseFrontmatter f.content).2) := by
    simp [normalizePost, h, orDefault]
  rw [hr, estimateReadTime_eq_spec]

/-- Four hundred space-separated words, no frontmatter. -/
def fourHundredWords : String :=
  String.intercalate " " (List.replicate 400 "a")

set_option maxRecDepth 100000 in
theorem read_time_default_witness :
    lookupKey (parseFrontmatter fourHundredWords).1 "readTime" = none ∧
    (normalizePost 0 ⟨"f", fourHundredWords⟩ "2024-01-01").readTime =
      FmValue.nat 2 := by
  refine ⟨by decide, ?_⟩
  have h := read_time_default 0 ⟨"f", fourHundredWords⟩ "2024-01-01"
    (by decide)
  rw [h]
  decide

/-- Claim C7: `getBlogPostBySlug` returns the first Post in repository
order whose slug is exactly (case-sensitively) the argument, and `none`
(the model of `undefined`) exactly when no Post matches.  The accessor is
a pure function of the post list, so it cannot mutate the repository. -/
theorem get_by_slug_first_match (posts : List Post) (slug : String) :
    (∀ p, getBlogPostBySlug posts slug = some p →
        p.slug = FmValue.str slug ∧
        ∃ pre suf, posts = pre ++ p :: suf ∧
          ∀ q ∈ pre, q.slug ≠ FmValue.str slug) ∧
    (getBlogPostBySlug posts slug = none ↔
        ∀ p ∈ posts, p.slug ≠ FmValue.str slug) := by
  constructor
  · intro p hp
    rcases find?_first _ posts p hp with ⟨hpred, s, t, hst, hall⟩
    refine ⟨by simpa using hpred, s, t, hst, fun q hq => ?_⟩
    simpa using hall q hq
  · rw [getBlogPostBySlug, List.find?_eq_none]
    simp

/-- Concrete posts for the slug-lookup witness. -/
def postA : Post :=
  ⟨1, .str "t1", .str "alpha", .str "2024-01-01", .str "", .list [],
    .bool false, .nat 1, "c1"⟩

def postB : Post :=
  ⟨2, .str "t2", .str "target", .str "2024-01-02", .str "", .list [],
    .bool false, .nat 1, "c2"⟩

def postC : Post :=
  ⟨3, .str "t3", .str "target", .str "2024-01-03", .str "", .list [],
    .bool true, .nat 1, "c3"⟩

theorem get_by_slug_first_match_witness :
    postB.slug = FmValue.str "target" ∧
    ∃ pre suf, [postA, postB, postC] = pre ++ postB :: suf ∧
      ∀ q ∈ pre, q.slug ≠ FmValue.str "target" :=
  (get_by_slug_first_match [postA, postB, postC] "target").1 postB (by decide)

theorem filterMap_if_ne {α β : Type} [DecidableEq α] (k : α) (p : α → β) :
    ∀ l : List α,
      l.filterMap (fun i => if i = k then none else some (p i)) =
        (l.filter (fun i => i ≠ k)).map p := by
  intro l
  induction l with
  | nil => rfl
  | cons a as ih =>
    by_cases h : a = k
    · subst h
      simp [List.filterMap_cons, ih]
    · simp [List.filterMap_cons, h, ih]

/-- Claim C2: if normalization of one source document throws (modelled by
the abstracted per-document outcome `norm` returning `none`, the `null`
the source's `catch` produces), that document alone is omitted: with five
documents of which exactly one fails, the repository is a permutation
(the subsequent sort) of exactly the four posts obtained from the
non-failing documents, and has length 4. -/
theorem partial_failure_isolation (norm : Nat → BlogFile → Option Post)
    (d : Fin 5 → BlogFile) (p : Fin 5 → Post) (k : Fin 5)
    (hok : ∀ i : Fin 5, i ≠ k → norm i.val (d i) = some (p i))
    (hbad : norm k.val (d k) = none) :
    (buildRepoWith norm [d 0, d 1, d 2, d 3, d 4]).Perm
        (((List.finRange 5).filter (fun i => i ≠ k)).map p) ∧
    (buildRepoWith norm [d 0, d 1, d 2, d 3, d 4]).length = 4 := by
  have hg : ∀ i : Fin 5,
      norm i.val (d i) = if i = k then none else some (p i) := by
    intro i
    by_cases h : i = k
    · subst h; simpa using hbad
    · simp [h, hok i h]
  have hlist : normAll norm 0 [d 0, d 1, d 2, d 3, d 4] =
      (List.finRange 5).map (fun i => norm i.val (d i)) := rfl
  have hmain : (normAll norm 0 [d 0, d 1, d 2, d 3, d 4]).filterMap id =
      ((List.finRange 5).filter (fun i => i ≠ k)).map p := by
    rw [hlist, List.filterMap_map]
    calc List.filterMap (id ∘ fun i : Fin 5 => norm i.val (d i))
            (List.finRange 5)
        = List.filterMap (fun i : Fin 5 => if i = k then none else some (p i))
            (List.finRange 5) :=
          List.filterMap_congr fun i _ => by simpa using hg i
      _ = ((List.finRange 5).filter (fun i => i ≠ k)).map p :=
          filterMap_if_ne k p _
  have hperm : (buildRepoWith norm [d 0, d 1, d 2, d 3, d 4]).Perm
      (((List.finRange 5).filter (fun i => i ≠ k)).map p) := by
    unfold buildRepoWith
    rw [hmain]
    exact sortPosts_perm _
  refine ⟨hperm, ?_⟩
  rw [hperm.length_eq, List.length_map]
  fin_cases k <;> decide

/-- One concrete per-document outcome for the isolation witness: the
document at position 2 fails, every other one normalizes. -/
def wNorm (i : Nat) (_f : BlogFile) : Option Post :=
  if i = 2 then none else some (normalizePost i ⟨"w", "body"⟩ "2024-01-01")

def wD (_i : Fin 5) : BlogFile := ⟨"w", "body"⟩

def wP (i : Fin 5) : Post := normalizePost i.val ⟨"w", "body"⟩ "2024-01-01"

theorem partial_failure_isolation_witness :
    (buildRepoWith wNorm [wD 0, wD 1, wD 2, wD 3, wD 4]).Perm
        [wP 0, wP 1, wP 3, wP 4] ∧
    (buildRepoWith wNorm [wD 0, wD 1, wD 2, wD 3, wD 4]).length = 4 := by
  have h := partial_failure_isolation wNorm wD wP 2 (by decide) (by decide)
  have he : ((List.finRange 5).filter (fun i => i ≠ (2 : Fin 5))).map wP =
      [wP 0, wP 1, wP 3, wP 4] := by decide
  exact ⟨he ▸ h.1, h.2⟩

/-- Claim C3: the constructed repository list is pairwise sorted by the
date comparator (descending by date; the hypothesis says every post's
date value parses, which makes the comparator consistent), and
`getFeaturedBlogPosts` and `getBlogPostsByTag` each return a subsequence
of that list, hence preserve its order. -/
theorem repo_sorted_and_filters (files : List BlogFile) (today : String)
    (h : ∀ p ∈ buildRepo files today, (dateNum p.date).isSome = true) :
    (buildRepo files today).Pairwise (fun a b => cmpPosts a b ≤ 0) ∧
    List.Sublist (getFeaturedBlogPosts (buildRepo files today))
      (buildRepo files today) ∧
    (∀ tag r, getBlogPostsByTag (buildRepo files today) tag = some r →
      List.Sublist r (buildRepo files today)) := by
  refine ⟨?_, List.filter_sublist _, fun tag r hr => filterJS_sublist hr⟩
  have hmem : ∀ p ∈ (normAll (fun i f => some (normalizePost i f today))
      0 files).filterMap id, (dateNum p.date).isSome = true := by
    intro p hp
    exact h p ((sortPosts_perm _).mem_iff.mpr hp)
  exact sortPosts_pairwise _ hmem

/-- Concrete source documents for the sortedness witness. -/
def c3files : List BlogFile :=
  [⟨"a", "---\ndate: 2023-01-01\ntags: [Rust]\nfeatured: true\n---\nx"⟩,
   ⟨"b", "---\ndate: 2024-01-01\n---\ny"⟩]

/-- The tag-filter result on the witness repository. -/
def c3tagged : List Post :=
  (getBlogPostsByTag (buildRepo c3files "2024-06-01") "Rust").getD []

theorem repo_sorted_and_filters_witness :
    (buildRepo c3files "2024-06-01").Pairwise
      (fun a b => cmpPosts a b ≤ 0) ∧
    List.Sublist (getFeaturedBlogPosts (buildRepo c3files "2024-06-01"))
      (buildRepo c3files "2024-06-01") ∧
    List.Sublist c3tagged (buildRepo c3files "2024-06-01") := by
  have h := repo_sorted_and_filters c3files "2024-06-01" (by decide)
  exact ⟨h.1, h.2.1, h.2.2 "Rust" c3tagged (by decide)⟩

end Blog
